import Mathlib

/-!
Verification of the med-notes-app token parsing, resolution workflow,
debounced search and bounded-cache code.

The definitions below are a shallow embedding of the JavaScript source:
  * `parseTokensClient` and its helpers embed `parseTokensClient`
    (src/Backend/api.js, lines 60-107);
  * the workflow definitions embed `useTokenInputWorkflow.processTokenInput`
    (src/hooks/useApi.js, lines 362-422);
  * the debounce definitions embed `createDebouncedSearch`
    (src/Backend/api.js, lines 598-614);
  * the cache definitions embed `BackendService.searchFeatures`,
    `BackendService.getDiseaseStats` (src/Backend/backendConfig.js) and
    `getCachedDiseaseStats` (src/Backend/api.js, lines 617-630).

JS strings are modelled as `List Char`.  Every character appearing in the
source patterns is in the Basic Multilingual Plane, so UTF-16 code units
coincide with code points and per-character operations such as `slice`,
`startsWith` and `endsWith` translate directly to list operations.
-/

set_option autoImplicit false

namespace MedNotes

/-- A dynamically typed JS value as stored in a token field: either a string
or a number.  Needed because `parseTokensClient` stores the raw regex
capture (a string) in `numericValue`. -/
inductive JsVal : Type where
  | str : List Char → JsVal
  | num : Nat → JsVal
deriving DecidableEq

/-- Whitespace as matched by the JS regex class backslash-s, restricted to
the code points that can occur here: space, tab, line feed, carriage
return, vertical tab and form feed.  (JS also accepts some exotic Unicode
spaces; they play no role in this code base.) -/
def isJsWs (c : Char) : Bool :=
  c = ' ' || c = '\t' || c = '\n' || c = '\r' || c = Char.ofNat 11 || c = Char.ofNat 12

/-- Helper for `splitWs`: `cur` is the (reversed) fragment being read. -/
def splitWsAux (cur : List Char) : List Char → List (List Char)
  | [] => if cur.isEmpty then [] else [cur.reverse]
  | c :: rest =>
    if isJsWs c then
      if cur.isEmpty then splitWsAux [] rest
      else cur.reverse :: splitWsAux [] rest
    else splitWsAux (c :: cur) rest

/-- Embeds `inputString.trim().split(/\s+/)` followed by the loop's
`if (!token) continue`: the non-empty maximal runs of non-whitespace
characters, in order.  (Trimming first and then skipping falsy fragments
is observationally the same as dropping every empty fragment.) -/
def splitWs (s : List Char) : List (List Char) :=
  splitWsAux [] s

/-- One parsed token, mirroring the object literal pushed by
`parseTokensClient`: original, cleanToken, isPresent, valueModifier,
numericValue. -/
structure Tok : Type where
  original : List Char
  cleanToken : List Char
  isPresent : Bool
  valueModifier : Option (List Char)
  numericValue : Option JsVal
deriving DecidableEq

/-- Embeds the sign-prefix step: `token.startsWith('+')` strips the plus,
`token.startsWith('-')` strips the minus and clears `isPresent`; only one
prefix character is consumed.  Returns (isPresent, rest). -/
def stripSign (t : List Char) : Bool × List Char :=
  match t with
  | [] => (true, [])
  | c :: r =>
    if c = '+' then (true, r)
    else if c = '-' then (false, r)
    else (true, c :: r)

/-- Embeds the directional-suffix step: `endsWith` of an up or down arrow
strips one trailing character and records the glyph.  Returns
(valueModifier, rest). -/
def stripArrow (t : List Char) : Option (List Char) × List Char :=
  if t.getLast? = some '↑' then (some ['↑'], t.dropLast)
  else if t.getLast? = some '↓' then (some ['↓'], t.dropLast)
  else (none, t)

/-- A non-empty all-digit string, i.e. what the anchored greedy group
backslash-d-plus-dollar of the comparison regex accepts. -/
def digitsNE (l : List Char) : Bool :=
  !l.isEmpty && l.all Char.isDigit

/-- Backtracking scan implementing the anchored JS regex
match of cleanToken against the pattern caret (.+?)([<>]=?)(backslash-d+) dollar.
The lazy word group grows from the left, so the scan tries each operator
position from left to right; at a position, the greedy `=?` tries the
two-character operator first.  The fallback of `=?` to the one-character
operator at a position followed by an equals sign would require the
remainder starting with the equals sign to be all digits, which is
impossible, so that dead branch is elided.  The dot of the word group
matches every character except a line terminator.  Returns
(word, operator, digits) on success. -/
def compScan (acc : List Char) : List Char → Option (List Char × List Char × List Char)
  | [] => none
  | c :: rest =>
    if (c = '<' ∨ c = '>') ∧ acc ≠ [] then
      match rest with
      | '=' :: rest2 =>
        if digitsNE rest2 then some (acc.reverse, [c, '='], rest2)
        else compScan (c :: acc) rest
      | _ =>
        if digitsNE rest then some (acc.reverse, [c], rest)
        else compScan (c :: acc) rest
    else if c = '\n' ∨ c = '\r' then none
    else compScan (c :: acc) rest

/-- Embeds `cleanToken.match(/^(.+?)([<>]=?)(\d+)$/)`. -/
def compMatch (s : List Char) : Option (List Char × List Char × List Char) :=
  compScan [] s

/-- Embeds the per-fragment body of the `for` loop of `parseTokensClient`:
sign prefix, then directional suffix, then the comparison-operator match
(which is attempted unconditionally and overwrites the directional
modifier when it succeeds).  `numericValue` receives the raw capture
group, a string. -/
def parseOne (t : List Char) : Tok :=
  let ps := stripSign t
  let as := stripArrow ps.2
  match compMatch as.2 with
  | some (w, op, d) =>
    { original := t, cleanToken := w, isPresent := ps.1
      valueModifier := some op, numericValue := some (JsVal.str d) }
  | none =>
    { original := t, cleanToken := as.2, isPresent := ps.1
      valueModifier := as.1, numericValue := none }

/-- Embeds `parseTokensClient` (src/Backend/api.js lines 60-107). -/
def parseTokensClient (s : List Char) : List Tok :=
  (splitWs s).map parseOne

/-- Generic success/failure result shape of the api wrappers:
an object with `data` and `error` fields. -/
structure ApiRes (R : Type) : Type where
  data : Option R
  error : Option (List Char)
deriving DecidableEq

/-- One row returned by the `parse_medical_tokens` RPC, with the fields the
workflow and the UI read from it. -/
structure ServerToken : Type where
  original_token : List Char
  canonical_feature_id : Option (List Char)
  canonical_name : Option (List Char)
  is_present : Bool
  value_modifier : Option (List Char)
  numeric_value : Option JsVal
deriving DecidableEq

/-- JS truthiness of `token.canonical_feature_id`: null/undefined and the
empty string are falsy, every other id string is truthy. -/
def truthyId : Option (List Char) → Bool
  | none => false
  | some l => !l.isEmpty

/-- JS `x || null` on an optional string: null/undefined and the empty
string collapse to null. -/
def jsOrNull : Option (List Char) → Option (List Char)
  | none => none
  | some l => if l.isEmpty then none else some l

/-- The argument record of one `addFeatureToDisease(diseaseId, featureId,
featureDetails)` call issued by the workflow, with the `featureDetails`
fields flattened in. -/
structure AttachCall : Type where
  diseaseId : List Char
  featureId : List Char
  value_text : Option (List Char)
  is_present : Bool
  typicality : List Char
  weight : Nat
deriving DecidableEq

/-- Outcome of one attach call as observed by the workflow:
`addFeatureToDisease` resolves with data, or with an error message. -/
inductive AttachResult : Type where
  | ok : AttachResult
  | err : List Char → AttachResult
deriving DecidableEq

/-- One entry pushed onto `processedTokens`: the spread source token plus
the `added`, `addError` and `needsManualCreation` fields (absent fields
modelled as `false` / `none`). -/
structure ProcessedToken : Type where
  src : ServerToken
  added : Bool
  addError : Option (List Char)
  needsManualCreation : Bool
deriving DecidableEq

/-- Embeds one iteration of the `for (const token of parsedTokens)` loop.
The attach collaborator is an oracle that may depend on the call position,
the disease, the feature and the details.  Returns the pushed processed
token together with the attach calls issued (one or zero). -/
def processOne (attach : Nat → AttachCall → AttachResult) (did : List Char)
    (i : Nat) (t : ServerToken) : ProcessedToken × List AttachCall :=
  if truthyId t.canonical_feature_id then
    let call : AttachCall :=
      { diseaseId := did, featureId := t.canonical_feature_id.getD []
        value_text := jsOrNull t.value_modifier, is_present := t.is_present
        typicality := "common".data, weight := 1 }
    match attach i call with
    | AttachResult.ok => ({ src := t, added := true, addError := none, needsManualCreation := false }, [call])
    | AttachResult.err m => ({ src := t, added := false, addError := some m, needsManualCreation := false }, [call])
  else
    ({ src := t, added := false, addError := none, needsManualCreation := true }, [])

/-- The strictly sequential token loop, threading the call position. -/
def processTokensFrom (attach : Nat → AttachCall → AttachResult) (did : List Char) :
    Nat → List ServerToken → List ProcessedToken × List AttachCall
  | _, [] => ([], [])
  | i, t :: rest =>
    let r := processOne attach did i t
    let rs := processTokensFrom attach did (i + 1) rest
    (r.1 :: rs.1, r.2 ++ rs.2)

/-- The whole token loop of `processTokenInput`, from position zero. -/
def processTokens (attach : Nat → AttachCall → AttachResult) (did : List Char)
    (toks : List ServerToken) : List ProcessedToken × List AttachCall :=
  processTokensFrom attach did 0 toks

/-- Observable outcome of one `processTokenInput` invocation.
`noop` is the silent early return of the guard; `completed` is
`setResults(processedTokens)`; `caught` is the catch branch
(`setError(err)` plus `setResults([])`).  `thrown` would be a rejection
escaping the workflow boundary; the definition never produces it. -/
inductive WorkflowOutcome : Type where
  | noop : WorkflowOutcome
  | completed : List ProcessedToken → WorkflowOutcome
  | caught : List Char → WorkflowOutcome
  | thrown : List Char → WorkflowOutcome
deriving DecidableEq

/-- JS falsiness of the `diseaseId` argument: null/undefined or the empty
string. -/
def jsFalsyOptStr : Option (List Char) → Bool
  | none => true
  | some l => l.isEmpty

/-- Embeds `processTokenInput` of `useTokenInputWorkflow` (useApi.js lines
367-422).  `parseRpc` is the settled result of `parseMedicalTokens`
(that wrapper itself never rejects: it returns a data/error object). -/
def processTokenInput (attach : Nat → AttachCall → AttachResult)
    (diseaseId : Option (List Char)) (tokenString : List Char)
    (parseRpc : ApiRes (List ServerToken)) : WorkflowOutcome :=
  if tokenString.all isJsWs || jsFalsyOptStr diseaseId then WorkflowOutcome.noop
  else
    match parseRpc.error with
    | some e => WorkflowOutcome.caught e
    | none =>
      WorkflowOutcome.completed
        (processTokens attach (diseaseId.getD []) (parseRpc.data.getD [])).1

/-- One call made to the function returned by `createDebouncedSearch`:
the query and the time (ms) at which the call is issued. -/
structure DebCall : Type where
  query : List Char
  time : Nat
deriving DecidableEq

/-- For each call in an ordered trace, whether its timer fires.
`clearTimeout` in the next call cancels a pending timer, so call `i`'s
timer fires iff there is no next call or the next call arrives no earlier
than `time + delay` (a timer due exactly when the next call arrives is
taken to have fired first). -/
def firesList (delay : Nat) : List DebCall → List (DebCall × Bool)
  | [] => []
  | [c] => [(c, true)]
  | c :: c' :: rest =>
    (c, decide (c.time + delay ≤ c'.time)) :: firesList delay (c' :: rest)

/-- The queries that actually reach `searchFunction` (the lookup service),
in order: exactly those whose timer fires. -/
def executedQueries (delay : Nat) (calls : List DebCall) : List (List Char) :=
  (firesList delay calls).filterMap fun p => if p.2 then some p.1.query else none

/-- Per call, the value its promise resolves with: the search result when
its timer fires, and nothing ever (the promise never settles) when the
timer was cleared by a later call. -/
def delivered {R : Type} (srch : List Char → R) (delay : Nat)
    (calls : List DebCall) : List (Option R) :=
  (firesList delay calls).map fun p => if p.2 then some (srch p.1.query) else none

/-- Cache keys are strings. -/
abbrev CKey : Type := List Char

/-- A value stored in the shared `BackendService` cache map: either a
search result object or a disease-stats result object. -/
inductive CVal (R : Type) : Type where
  | search : ApiRes (List R) → CVal R
  | stats : ApiRes R → CVal R
deriving DecidableEq

/-- The error field of a stored result. -/
def valErr {R : Type} : CVal R → Option (List Char)
  | CVal.search r => r.error
  | CVal.stats r => r.error

/-- One entry of the `BackendService` cache map.  `deleteAt` is the firing
time of the `setTimeout` deletion scheduled for the entry, when one was
scheduled (only `searchFeatures` schedules one). -/
structure CEntry (R : Type) : Type where
  key : CKey
  val : CVal R
  deleteAt : Option Nat
deriving DecidableEq

/-- The template literal key of `searchFeatures`. -/
def searchKey (q : CKey) (lim : Nat) : CKey :=
  "search:".data ++ q ++ ":".data ++ Nat.toDigits 10 lim

/-- The template literal key of `getDiseaseStats`. -/
def statsKey (id : CKey) : CKey :=
  "stats:".data ++ id

/-- `this.cache.has` / `this.cache.get` on the entry list. -/
def lookupC {R : Type} (st : List (CEntry R)) (k : CKey) : Option (CVal R) :=
  (st.find? fun e => e.key = k).map CEntry.val

/-- Fires every deletion timer due at or before time `t`: entries whose
scheduled deletion time has been reached are removed; entries without a
timer are untouched. -/
def purge {R : Type} (t : Nat) (st : List (CEntry R)) : List (CEntry R) :=
  st.filter fun e =>
    match e.deleteAt with
    | none => true
    | some d => decide (t < d)

/-- JS `data?.[0] || null` on a nullable rows array. -/
def headOrNull {R : Type} : Option (List R) → Option R
  | none => none
  | some l => l.head?

/-- Embeds `BackendService.searchFeatures` at time `t` against cache state
`st` (already purged of due timers): cache hit returns the stored object;
otherwise on rpc error the error result is returned and nothing is
cached; on success the result is cached and a deletion timer is scheduled
`ttl` ms later. -/
def searchStep {R : Type} (ttl t : Nat) (st : List (CEntry R)) (q : CKey) (lim : Nat)
    (rpc : ApiRes (List R)) : CVal R × List (CEntry R) :=
  match lookupC st (searchKey q lim) with
  | some v => (v, st)
  | none =>
    match rpc.error with
    | some e => (CVal.search { data := none, error := some e }, st)
    | none =>
      let res : ApiRes (List R) := { data := rpc.data, error := none }
      (CVal.search res, { key := searchKey q lim, val := CVal.search res, deleteAt := some (t + ttl) } :: st)

/-- Embeds `BackendService.getDiseaseStats`: like `searchFeatures` but the
result keeps only the first row and no deletion timer is ever
scheduled. -/
def statsStep {R : Type} (st : List (CEntry R)) (id : CKey)
    (rpc : ApiRes (List R)) : CVal R × List (CEntry R) :=
  match lookupC st (statsKey id) with
  | some v => (v, st)
  | none =>
    match rpc.error with
    | some e => (CVal.stats { data := none, error := some e }, st)
    | none =>
      let res : ApiRes R := { data := headOrNull rpc.data, error := none }
      (CVal.stats res, { key := statsKey id, val := CVal.stats res, deleteAt := none } :: st)

/-- One timestamped call against the shared `BackendService` cache, with
the settled outcome of the underlying supabase rpc. -/
inductive CacheOp (R : Type) : Type where
  | search : CKey → Nat → ApiRes (List R) → Nat → CacheOp R
  | stats : CKey → ApiRes (List R) → Nat → CacheOp R
deriving DecidableEq

/-- The time at which a cache operation runs. -/
def opTime {R : Type} : CacheOp R → Nat
  | CacheOp.search _ _ _ t => t
  | CacheOp.stats _ _ t => t

/-- Dispatch one operation against an already-purged state. -/
def opStep {R : Type} (ttl : Nat) (st : List (CEntry R)) :
    CacheOp R → CVal R × List (CEntry R)
  | CacheOp.search q lim rpc t => searchStep ttl t st q lim rpc
  | CacheOp.stats id rpc _ => statsStep st id rpc

/-- Run a trace of cache operations: before each operation every deletion
timer that is due fires, then the operation executes.  Returns the served
results in order and the final state. -/
def runOps {R : Type} (ttl : Nat) (st : List (CEntry R)) :
    List (CacheOp R) → List (CVal R) × List (CEntry R)
  | [] => ([], st)
  | op :: rest =>
    let st1 := purge (opTime op) st
    let r := opStep ttl st1 op
    let rs := runOps ttl r.2 rest
    (r.1 :: rs.1, rs.2)

/-- Embeds `getDiseaseStats` of api.js (the uncached rpc wrapper used by
`getCachedDiseaseStats`): on rpc error it returns data null with the
error, otherwise the first row with error null. -/
def apiGetDiseaseStats {R : Type} (rpc : ApiRes (List R)) : ApiRes R :=
  match rpc.error with
  | some e => { data := none, error := some e }
  | none => { data := headOrNull rpc.data, error := none }

/-- Embeds `getCachedDiseaseStats` of api.js together with its module-level
`quickPeekCache` map: a present key is served from the cache without
fetching; otherwise the fetched result is returned, and it is stored only
when its data field is truthy.  No entry carries any expiry. -/
def getCachedDiseaseStats {R : Type} (cache : List (CKey × ApiRes R)) (id : CKey)
    (fetch : ApiRes R) : ApiRes R × List (CKey × ApiRes R) :=
  match (cache.find? fun p => p.1 = id).map Prod.snd with
  | some r => (r, cache)
  | none => (fetch, if fetch.data.isSome then (id, fetch) :: cache else cache)

/-- The tokenizer modifier invariant: a parsed token carries no modifier,
or a directional arrow (and then no numeric value), or a comparison
operator together with a non-empty digit-string numeric value.  The three
disjuncts are pairwise contradictory, so exactly one holds. -/
def modifierInvariant (t : Tok) : Prop :=
  (t.valueModifier = none ∧ t.numericValue = none) ∨
  ((t.valueModifier = some ['↑'] ∨ t.valueModifier = some ['↓']) ∧ t.numericValue = none) ∨
  (∃ op d, t.valueModifier = some op ∧
    (op = ['<'] ∨ op = ['<', '='] ∨ op = ['>'] ∨ op = ['>', '=']) ∧
    t.numericValue = some (JsVal.str d) ∧ d ≠ [] ∧ d.all Char.isDigit = true)

/-- Specification of the attach calls the workflow issues, written from the
amended claim: one call per token with a truthy canonical feature id, in
input order, carrying presence and the bare value modifier (nulled when
empty), with default typicality and weight. -/
def attachCallsSpec (did : List Char) (toks : List ServerToken) : List AttachCall :=
  toks.filterMap fun t =>
    if truthyId t.canonical_feature_id then
      some { diseaseId := did, featureId := t.canonical_feature_id.getD []
             value_text := jsOrNull t.value_modifier, is_present := t.is_present
             typicality := "common".data, weight := 1 }
    else none

/-- An attach collaborator that always succeeds. -/
def attachOk : Nat → AttachCall → AttachResult := fun _ _ => AttachResult.ok

/-- An attach collaborator that always fails with a fixed message. -/
def attachErrAll : Nat → AttachCall → AttachResult :=
  fun _ _ => AttachResult.err "down".data

/-- A concrete search collaborator used in witnesses: echoes the query. -/
def idSearch : List Char → List Char := fun q => q

/-- Helper: a string accepted by the digits group is non-empty and all digits. -/
theorem digitsNE_spec {l : List Char} (h : digitsNE l = true) :
    l ≠ [] ∧ l.all Char.isDigit = true := by
  unfold digitsNE at h
  simp at h
  obtain ⟨h1, h2⟩ := h
  exact ⟨h1, by simpa using h2⟩

/-- Helper: every character of a fragment of the whitespace split is a non-whitespace character. -/
theorem splitWsAux_not_ws (l : List Char) : ∀ (cur f : List Char),
    (∀ c ∈ cur, isJsWs c = false) → f ∈ splitWsAux cur l → ∀ c ∈ f, isJsWs c = false := by
  induction l with
  | nil =>
    intro cur f hcur hf c hc
    unfold splitWsAux at hf
    split at hf
    · simp at hf
    · simp at hf
      subst hf
      exact hcur c (List.mem_reverse.mp hc)
  | cons a rest ih =>
    intro cur f hcur hf c hc
    unfold splitWsAux at hf
    split at hf
    · split at hf
      · exact ih [] f (by simp) hf c hc
      · rcases List.mem_cons.mp hf with h | h
        · subst h
          exact hcur c (List.mem_reverse.mp hc)
        · exact ih [] f (by simp) h c hc
    · rename_i ha
      refine ih (a :: cur) f ?_ hf c hc
      intro x hx
      rcases List.mem_cons.mp hx with h | h
      · subst h
        exact Bool.not_eq_true _ ▸ (by simpa using ha)
      · exact hcur x h

/-- Helper: the whitespace split never emits an empty fragment. -/
theorem splitWsAux_ne_nil (l : List Char) : ∀ (cur f : List Char),
    f ∈ splitWsAux cur l → f ≠ [] := by
  induction l with
  | nil =>
    intro cur f hf
    unfold splitWsAux at hf
    split at hf
    · simp at hf
    · rename_i hcur
      simp at hf
      subst hf
      simpa using hcur
  | cons a rest ih =>
    intro cur f hf
    unfold splitWsAux at hf
    split at hf
    · split at hf
      · exact ih [] f hf
      · rename_i hcur
        rcases List.mem_cons.mp hf with h | h
        · subst h
          simpa using hcur
        · exact ih [] f h
    · exact ih (a :: cur) f hf

/-- Helper: splitting a whitespace-free character list leaves it whole. -/
theorem splitWsAux_all_not_ws (l : List Char) (hl : ∀ c ∈ l, isJsWs c = false) :
    ∀ cur : List Char,
      splitWsAux cur l = if cur.reverse ++ l = [] then [] else [cur.reverse ++ l] := by
  induction l with
  | nil =>
    intro cur
    unfold splitWsAux
    split
    · rename_i hcur
      have hc : cur = [] := by
        cases cur with
        | nil => rfl
        | cons x xs => simp at hcur
      simp [hc]
    · rename_i hcur
      have hc : cur ≠ [] := fun h => hcur (by simp [h])
      simp [hc]
  | cons a rest ih =>
    intro cur
    have ha : isJsWs a = false := hl a (List.mem_cons_self a rest)
    unfold splitWsAux
    rw [if_neg (by simp [ha])]
    rw [ih (fun c hc => hl c (List.mem_cons_of_mem a hc)) (a :: cur)]
    simp

/-- Helper: a non-empty whitespace-free string splits into exactly itself. -/
theorem splitWs_singleton (l : List Char) (hl : ∀ c ∈ l, isJsWs c = false) (h0 : l ≠ []) :
    splitWs l = [l] := by
  unfold splitWs
  rw [splitWsAux_all_not_ws l hl []]
  simp [h0]

/-- Helper: rearranging a membership disjunction across a cons cell. -/
theorem mem_cons_step {a : Char} {acc rest w : List Char}
    (hsub : ∀ c ∈ w, c ∈ a :: acc ∨ c ∈ rest) :
    ∀ c ∈ w, c ∈ acc ∨ c ∈ a :: rest := by
  intro c hc
  rcases hsub c hc with h1 | h1
  · rcases List.mem_cons.mp h1 with h2 | h2
    · exact Or.inr (by simp [h2])
    · exact Or.inl h2
  · exact Or.inr (List.mem_cons_of_mem a h1)

/-- Helper: a successful comparison-regex match yields one of the four operators, a non-empty all-digit capture, a non-empty word, and word characters drawn from the scanned input. -/
theorem compScan_some (l : List Char) : ∀ (acc w op d : List Char),
    compScan acc l = some (w, op, d) →
    (op = ['<'] ∨ op = ['<', '='] ∨ op = ['>'] ∨ op = ['>', '=']) ∧
    d ≠ [] ∧ d.all Char.isDigit = true ∧ w ≠ [] ∧ (∀ c ∈ w, c ∈ acc ∨ c ∈ l) := by
  induction l with
  | nil =>
    intro acc w op d h
    simp [compScan] at h
  | cons a rest ih =>
    intro acc w op d h
    unfold compScan at h
    split at h
    · rename_i hg
      obtain ⟨hop, hacc⟩ := hg
      split at h
      · split at h
        · rename_i hdig
          obtain ⟨hw, hopv, hd⟩ : w = acc.reverse ∧ op = [a, '='] ∧ _ = d := by
            have := h.symm
            simp at this
            exact ⟨this.1, this.2.1, this.2.2.symm⟩
          subst hw; subst hopv; subst hd
          obtain ⟨hd1, hd2⟩ := digitsNE_spec hdig
          refine ⟨?_, hd1, hd2, by simpa using hacc, ?_⟩
          · rcases hop with h | h <;> subst h <;> simp
          · intro c hc
            exact Or.inl (List.mem_reverse.mp hc)
        · have hres := ih (a :: acc) w op d h
          exact ⟨hres.1, hres.2.1, hres.2.2.1, hres.2.2.2.1, mem_cons_step hres.2.2.2.2⟩
      · split at h
        · rename_i hdig
          obtain ⟨hw, hopv, hd⟩ : w = acc.reverse ∧ op = [a] ∧ rest = d := by
            have := h.symm
            simp at this
            exact ⟨this.1, this.2.1, this.2.2.symm⟩
          subst hw; subst hopv; subst hd
          obtain ⟨hd1, hd2⟩ := digitsNE_spec hdig
          refine ⟨?_, hd1, hd2, by simpa using hacc, ?_⟩
          · rcases hop with h | h <;> subst h <;> simp
          · intro c hc
            exact Or.inl (List.mem_reverse.mp hc)
        · have hres := ih (a :: acc) w op d h
          exact ⟨hres.1, hres.2.1, hres.2.2.1, hres.2.2.2.1, mem_cons_step hres.2.2.2.2⟩
    · split at h
      · simp at h
      · have hres := ih (a :: acc) w op d h
        exact ⟨hres.1, hres.2.1, hres.2.2.1, hres.2.2.2.1, mem_cons_step hres.2.2.2.2⟩

/-- Helper: parseOne keeps the original fragment verbatim. -/
theorem parseOne_original (f : List Char) : (parseOne f).original = f := by
  simp only [parseOne]
  split <;> rfl

/-- Helper: the sign-stripped remainder is made of characters of the fragment. -/
theorem stripSign_snd_mem (f : List Char) : ∀ c ∈ (stripSign f).2, c ∈ f := by
  unfold stripSign
  match f with
  | [] => simp
  | a :: r =>
    intro c hc
    by_cases h1 : a = '+'
    · simp [h1] at hc
      exact List.mem_cons_of_mem a hc
    · by_cases h2 : a = '-'
      · simp [h1, h2] at hc
        exact List.mem_cons_of_mem a hc
      · simpa [h1, h2] using hc

/-- Helper: the arrow-stripped remainder is made of characters of its input. -/
theorem stripArrow_snd_mem (t0 : List Char) : ∀ c ∈ (stripArrow t0).2, c ∈ t0 := by
  unfold stripArrow
  split
  · intro c hc
    exact List.dropLast_sublist t0 |>.subset hc
  · split
    · intro c hc
      exact List.dropLast_sublist t0 |>.subset hc
    · intro c hc
      exact hc

/-- Helper: every character of cleanToken comes from the original fragment. -/
theorem parseOne_cleanToken_mem (f : List Char) : ∀ c ∈ (parseOne f).cleanToken, c ∈ f := by
  intro c hc
  revert hc
  simp only [parseOne]
  split
  · rename_i w op d hm
    intro hc
    have := (compScan_some _ [] w op d hm).2.2.2.2 c hc
    rcases this with h | h
    · simp at h
    · exact stripSign_snd_mem f c (stripArrow_snd_mem _ c h)
  · intro hc
    exact stripSign_snd_mem f c (stripArrow_snd_mem _ c hc)

/-- Helper: a string with no sign prefix, no arrow suffix and no comparison match parses to a single unmodified token. -/
theorem parseOne_trivial (l : List Char)
    (h1 : l.head? ≠ some '+') (h2 : l.head? ≠ some '-')
    (h3 : l.getLast? ≠ some '↑') (h4 : l.getLast? ≠ some '↓')
    (h5 : compMatch l = none) :
    parseOne l = ⟨l, l, true, none, none⟩ := by
  have hs : stripSign l = (true, l) := by
    cases l with
    | nil => rfl
    | cons a r =>
      have hred : stripSign (a :: r) =
          if a = '+' then (true, r) else if a = '-' then (false, r) else (true, a :: r) := rfl
      rw [hred, if_neg (fun h => h1 (by simp [h])), if_neg (fun h => h2 (by simp [h]))]
  have ha : stripArrow l = (none, l) := by
    unfold stripArrow
    rw [if_neg h3, if_neg h4]
  simp [parseOne, hs, ha, h5]

/-- Helper: every parsed token satisfies the modifier invariant. -/
theorem parseOne_invariant (f : List Char) : modifierInvariant (parseOne f) := by
  simp only [parseOne]
  split
  · rename_i w op d hm
    have h := compScan_some _ [] w op d hm
    right; right
    exact ⟨op, d, rfl, h.1, rfl, h.2.1, h.2.2.1⟩
  · unfold stripArrow
    split
    · right; left
      exact ⟨Or.inl rfl, rfl⟩
    · split
      · right; left
        exact ⟨Or.inr rfl, rfl⟩
      · left
        exact ⟨rfl, rfl⟩

/-- Helper: a list whose dropLast is empty and whose last element exists is that singleton. -/
theorem dropLast_getLast_eq_singleton {α : Type} {l : List α} {a : α}
    (h1 : l.dropLast = []) (h2 : l.getLast? = some a) : l = [a] := by
  match l with
  | [] => simp at h2
  | [x] =>
    simp at h2
    rw [h2]
  | x :: y :: r =>
    have : (x :: y :: r).dropLast = x :: (y :: r).dropLast := rfl
    rw [this] at h1
    exact absurd h1 (by simp)

/-- Helper: the three possible shapes of a fragment relative to its sign-stripped remainder. -/
theorem stripSign_cases (f : List Char) (hne : f ≠ []) :
    f = '+' :: (stripSign f).2 ∨ f = '-' :: (stripSign f).2 ∨ (stripSign f).2 = f := by
  cases f with
  | nil => exact absurd rfl hne
  | cons a r =>
    have hred : stripSign (a :: r) =
        if a = '+' then (true, r) else if a = '-' then (false, r) else (true, a :: r) := rfl
    by_cases h1 : a = '+'
    · left
      rw [hred, if_pos h1, h1]
    · by_cases h2 : a = '-'
      · right; left
        rw [hred, if_neg h1, if_pos h2, h2]
      · right; right
        rw [hred, if_neg h1, if_neg h2]

/-- Helper: the arrow-stripped remainder is empty only for the empty string or a lone arrow glyph. -/
theorem stripArrow_snd_nil (l : List Char) (h : (stripArrow l).2 = []) :
    l = [] ∨ l = ['↑'] ∨ l = ['↓'] := by
  unfold stripArrow at h
  split at h
  · rename_i hl
    right; left
    exact dropLast_getLast_eq_singleton h hl
  · split at h
    · rename_i hl
      right; right
      exact dropLast_getLast_eq_singleton h hl
    · left
      exact h

/-- C2 (amended): re-tokenizing a token's cleanText yields exactly one token
with the same cleanText and no modifier, provided the cleanText is non-empty,
does not start with a sign character, does not end with an arrow glyph, and
does not itself match the comparison pattern.  The unamended claim fails on
tokens violating these side conditions (see the counterexample). -/
theorem c2_idempotent_amended (s : List Char) (t : Tok) (ht : t ∈ parseTokensClient s)
    (h0 : t.cleanToken ≠ [])
    (h1 : t.cleanToken.head? ≠ some '+') (h2 : t.cleanToken.head? ≠ some '-')
    (h3 : t.cleanToken.getLast? ≠ some '↑') (h4 : t.cleanToken.getLast? ≠ some '↓')
    (h5 : compMatch t.cleanToken = none) :
    parseTokensClient t.cleanToken = [⟨t.cleanToken, t.cleanToken, true, none, none⟩] := by
  obtain ⟨f, hf, rfl⟩ := List.mem_map.mp ht
  have hfr : ∀ c ∈ f, isJsWs c = false := splitWsAux_not_ws s [] f (by simp) hf
  have hcw : ∀ c ∈ (parseOne f).cleanToken, isJsWs c = false :=
    fun c hc => hfr c (parseOne_cleanToken_mem f c hc)
  unfold parseTokensClient
  rw [show splitWs (parseOne f).cleanToken = [(parseOne f).cleanToken] from
    splitWs_singleton _ hcw h0]
  rw [List.map_cons, List.map_nil, parseOne_trivial _ h1 h2 h3 h4 h5]

/-- C3 (amended): every token produced by the tokenizer satisfies the
exclusive modifier invariant: no modifier, or a directional arrow with no
numeric value, or a comparison operator with a non-empty digit capture.  The
unamended claim's ordering clause is false: the comparison match runs even
after a directional suffix matched and overwrites it (see the
counterexample), but the invariant itself survives. -/
theorem c3_modifier_invariant (s : List Char) (t : Tok) (ht : t ∈ parseTokensClient s) :
    modifierInvariant t := by
  obtain ⟨f, _, rfl⟩ := List.mem_map.mp ht
  exact parseOne_invariant f

/-- C8 (amended): a token's cleanText is empty only when the whole non-empty
fragment consists of just a sign prefix and/or one directional glyph; for
every other fragment cleanText is non-empty. -/
theorem c8_nonempty_cleanText_amended (s : List Char) (t : Tok)
    (ht : t ∈ parseTokensClient s) (h : t.cleanToken = []) :
    t.original = ['+'] ∨ t.original = ['-'] ∨ t.original = ['↑'] ∨ t.original = ['↓'] ∨
    t.original = ['+', '↑'] ∨ t.original = ['+', '↓'] ∨
    t.original = ['-', '↑'] ∨ t.original = ['-', '↓'] := by
  obtain ⟨f, hf, rfl⟩ := List.mem_map.mp ht
  have hne : f ≠ [] := splitWsAux_ne_nil s [] f hf
  rw [parseOne_original]
  revert h
  simp only [parseOne]
  split
  · rename_i w op d hm
    intro h
    exact absurd h (compScan_some _ [] w op d hm).2.2.2.1
  · intro h
    rcases stripArrow_snd_nil _ h with hc | hc | hc <;>
      rcases stripSign_cases f hne with hsf | hsf | hsf <;>
      rw [hc] at hsf <;> simp [hsf] at hne ⊢

/-- Helper: a processed token carries its source token unchanged. -/
theorem processOne_src (attach : Nat → AttachCall → AttachResult) (did : List Char)
    (i : Nat) (t : ServerToken) : ((processOne attach did i t).1).src = t := by
  simp only [processOne]
  split
  · split <;> rfl
  · rfl

/-- Helper: the attach call issued for one token, independent of the attach outcome. -/
theorem processOne_calls (attach : Nat → AttachCall → AttachResult) (did : List Char)
    (i : Nat) (t : ServerToken) :
    (processOne attach did i t).2 =
      if truthyId t.canonical_feature_id then
        [⟨did, t.canonical_feature_id.getD [], jsOrNull t.value_modifier,
          t.is_present, "common".data, 1⟩]
      else [] := by
  simp only [processOne]
  split
  · split <;> rfl
  · rfl

/-- Helper: the workflow emits exactly one processed token per input token. -/
theorem processTokensFrom_length (attach : Nat → AttachCall → AttachResult)
    (did : List Char) : ∀ (toks : List ServerToken) (i : Nat),
    ((processTokensFrom attach did i toks).1).length = toks.length := by
  intro toks
  induction toks with
  | nil => intro i; rfl
  | cons t rest ih =>
    intro i
    simp only [processTokensFrom, List.length_cons, ih (i + 1)]

/-- Helper: the processed tokens carry the input tokens in input order. -/
theorem processTokensFrom_map_src (attach : Nat → AttachCall → AttachResult)
    (did : List Char) : ∀ (toks : List ServerToken) (i : Nat),
    ((processTokensFrom attach did i toks).1).map ProcessedToken.src = toks := by
  intro toks
  induction toks with
  | nil => intro i; rfl
  | cons t rest ih =>
    intro i
    simp only [processTokensFrom, List.map_cons, processOne_src, ih (i + 1)]

/-- Helper: the processed token at each index depends only on the input token at that index. -/
theorem processTokensFrom_getElem (attach : Nat → AttachCall → AttachResult)
    (did : List Char) : ∀ (toks : List ServerToken) (k i : Nat),
    ((processTokensFrom attach did k toks).1)[i]? =
      (toks[i]?).map fun t => (processOne attach did (k + i) t).1 := by
  intro toks
  induction toks with
  | nil => intro k i; simp [processTokensFrom]
  | cons t rest ih =>
    intro k i
    cases i with
    | zero => simp [processTokensFrom]
    | succ j =>
      have harith : k + 1 + j = k + (j + 1) := by omega
      simp only [processTokensFrom, List.getElem?_cons_succ, ih (k + 1) j, harith]

/-- Helper: the attach-call log equals the per-token call specification, for any start index. -/
theorem processTokensFrom_calls (attach : Nat → AttachCall → AttachResult)
    (did : List Char) : ∀ (toks : List ServerToken) (i : Nat),
    (processTokensFrom attach did i toks).2 = attachCallsSpec did toks := by
  intro toks
  induction toks with
  | nil => intro i; rfl
  | cons t rest ih =>
    intro i
    simp only [processTokensFrom, processOne_calls, attachCallsSpec, List.filterMap_cons,
      ih (i + 1)]
    split <;> simp [attachCallsSpec]

/-- C1: when the attach call for the token at position i fails, the workflow
still returns one processed token per input token, in original input order,
and the failure is recorded on that token alone: added is false and the error
message is kept as addError.  No early termination occurs for any attach
oracle. -/
theorem c1_attach_failure_isolated (attach : Nat → AttachCall → AttachResult)
    (did : List Char) (toks : List ServerToken) (i : Nat) (t : ServerToken) (m : List Char)
    (hi : toks[i]? = some t)
    (hres : truthyId t.canonical_feature_id = true)
    (hfail : attach i ⟨did, t.canonical_feature_id.getD [], jsOrNull t.value_modifier,
        t.is_present, "common".data, 1⟩ = AttachResult.err m) :
    ((processTokens attach did toks).1).length = toks.length ∧
    ((processTokens attach did toks).1).map ProcessedToken.src = toks ∧
    ((processTokens attach did toks).1)[i]? = some ⟨t, false, some m, false⟩ := by
  refine ⟨processTokensFrom_length attach did toks 0,
    processTokensFrom_map_src attach did toks 0, ?_⟩
  rw [processTokens, processTokensFrom_getElem attach did toks 0 i, hi]
  show some ((processOne attach did (0 + i) t).1) = _
  simp only [Nat.zero_add, processOne, hres, if_true, hfail]

/-- C4 (amended): the attach calls the workflow issues carry presence equal
to the token's is_present and a stored value text equal to the token's
value_modifier alone (nulled when empty or absent), with default typicality
and weight; the numeric value is never appended to the value text.  The
unamended claim, which expects operator-plus-number, fails (see the
counterexample). -/
theorem c4_attach_calls_amended (attach : Nat → AttachCall → AttachResult)
    (did : List Char) (toks : List ServerToken) :
    (processTokens attach did toks).2 = attachCallsSpec did toks :=
  processTokensFrom_calls attach did toks 0

/-- C5: of two debounced calls issued within the debounce window, only the
later call's query reaches the lookup service and only its result is ever
delivered; the superseded call's promise never settles. -/
theorem c5_debounce_supersedes {R : Type} (srch : List Char → R) (delay : Nat)
    (q1 q2 : List Char) (t1 t2 : Nat) (h : t2 < t1 + delay) :
    executedQueries delay [⟨q1, t1⟩, ⟨q2, t2⟩] = [q2] ∧
    delivered srch delay [⟨q1, t1⟩, ⟨q2, t2⟩] = [none, some (srch q2)] := by
  have hd : decide (t1 + delay ≤ t2) = false := decide_eq_false (by omega)
  constructor <;> simp [executedQueries, delivered, firesList, hd]

/-- C6 (amended): only the search cache is time-bounded: a fresh search
result is stored with a deletion timer set ttl milliseconds ahead, the timer
purge removes exactly the entries whose scheduled deletion is due, and
entries without a timer (the stats entries, which are stored with none)
survive every purge.  The unamended claim, which demands expiry for every
cache entry, fails on the stats caches (see the counterexample). -/
theorem c6_expiry_amended (R : Type) (ttl : Nat) :
    (∀ (t : Nat) (st : List (CEntry R)) (q : CKey) (lim : Nat) (rpc : ApiRes (List R)),
       rpc.error = none → lookupC st (searchKey q lim) = none →
       (searchStep ttl t st q lim rpc).2 =
         ⟨searchKey q lim, CVal.search ⟨rpc.data, none⟩, some (t + ttl)⟩ :: st) ∧
    (∀ (tq : Nat) (st : List (CEntry R)) (e : CEntry R) (d : Nat),
       e ∈ purge tq st → e.deleteAt = some d → tq < d) ∧
    (∀ (tq : Nat) (st : List (CEntry R)) (e : CEntry R),
       e ∈ st → e.deleteAt = none → e ∈ purge tq st) ∧
    (∀ (st : List (CEntry R)) (id : CKey) (rpc : ApiRes (List R)),
       rpc.error = none → lookupC st (statsKey id) = none →
       (statsStep st id rpc).2 =
         ⟨statsKey id, CVal.stats ⟨headOrNull rpc.data, none⟩, none⟩ :: st) := by
  refine ⟨?_, ?_, ?_, ?_⟩
  · intro t st q lim rpc he hl
    simp only [searchStep, hl, he]
  · intro tq st e d hm hd
    have hp := (List.mem_filter.mp hm).2
    rw [hd] at hp
    exact of_decide_eq_true hp
  · intro tq st e hm hd
    exact List.mem_filter.mpr ⟨hm, by simp [purge, hd]⟩
  · intro st id rpc he hl
    simp only [statsStep, hl, he]

/-- C9 (amended): the workflow never throws past its boundary: calling it
with a missing or empty target entity id silently no-ops rather than
rejecting, and a parse-stage error is caught and surfaced as workflow-level
error state.  The unamended claim, which says the missing-entity case
throws, fails (see the counterexample). -/
theorem c9_error_boundary_amended (attach : Nat → AttachCall → AttachResult)
    (odid : Option (List Char)) (did ts : List Char) (rpc : ApiRes (List ServerToken))
    (e e' : List Char) (hts : ts.all isJsWs = false) :
    processTokenInput attach odid ts rpc ≠ WorkflowOutcome.thrown e' ∧
    processTokenInput attach none ts rpc = WorkflowOutcome.noop ∧
    processTokenInput attach (some []) ts rpc = WorkflowOutcome.noop ∧
    processTokenInput attach (some ('d' :: did)) ts ⟨rpc.data, some e⟩ =
      WorkflowOutcome.caught e := by
  refine ⟨?_, ?_, ?_, ?_⟩
  · unfold processTokenInput
    split
    · simp
    · split <;> simp
  · simp [processTokenInput, jsFalsyOptStr]
  · simp [processTokenInput, jsFalsyOptStr]
  · simp [processTokenInput, jsFalsyOptStr, hts]

/-- C10: a failed lookup leaves every cache unchanged: the search cache, the
disease-stats cache and the quick-peek cache each store an entry only on a
successful response, and caches whose entries are all error-free stay
error-free after any step, so an error outcome is never stored in, or later
served from, any cache. -/
theorem c10_error_never_cached (R : Type) (ttl t : Nat) (st : List (CEntry R))
    (q id : CKey) (lim : Nat) (d : Option (List R)) (e : List Char)
    (qc : List (CKey × ApiRes R))
    (hinv : ∀ en ∈ st, valErr en.val = none)
    (hq : ∀ p ∈ qc, (Prod.snd p).error = none) :
    (searchStep ttl t st q lim ⟨d, some e⟩).2 = st ∧
    (statsStep st id ⟨d, some e⟩).2 = st ∧
    (getCachedDiseaseStats qc id (apiGetDiseaseStats ⟨d, some e⟩)).2 = qc ∧
    (∀ rpc : ApiRes (List R), ∀ en ∈ (searchStep ttl t st q lim rpc).2, valErr en.val = none) ∧
    (∀ rpc : ApiRes (List R), ∀ en ∈ (statsStep st id rpc).2, valErr en.val = none) ∧
    (∀ rpc : ApiRes (List R),
       ∀ p ∈ (getCachedDiseaseStats qc id (apiGetDiseaseStats rpc)).2,
         (Prod.snd p).error = none) := by
  refine ⟨?_, ?_, ?_, ?_, ?_, ?_⟩
  · unfold searchStep
    split <;> rfl
  · unfold statsStep
    split <;> rfl
  · unfold getCachedDiseaseStats
    split <;> rfl
  · intro rpc en hen
    unfold searchStep at hen
    split at hen
    · exact hinv en hen
    · split at hen
      · exact hinv en hen
      · rcases List.mem_cons.mp hen with h | h
        · rw [h]
          rfl
        · exact hinv en h
  · intro rpc en hen
    unfold statsStep at hen
    split at hen
    · exact hinv en hen
    · split at hen
      · exact hinv en hen
      · rcases List.mem_cons.mp hen with h | h
        · rw [h]
          rfl
        · exact hinv en h
  · intro rpc p hp
    cases hre : rpc.error with
    | some e2 =>
      simp only [apiGetDiseaseStats, hre] at hp
      unfold getCachedDiseaseStats at hp
      split at hp
      · exact hq p hp
      · simp at hp
        exact hq p hp
    | none =>
      simp only [apiGetDiseaseStats, hre] at hp
      unfold getCachedDiseaseStats at hp
      split at hp
      · exact hq p hp
      · split at hp
        · rcases List.mem_cons.mp hp with h | h
          · rw [h]
          · exact hq p h
        · exact hq p hp

/-- C2 counterexample: the fragment consisting of a lone minus sign parses to
a token whose cleanText is empty, and re-tokenizing that cleanText yields
zero tokens, not exactly one as the claim states. -/
theorem c2_idempotence_cex :
    parseTokensClient "-".data = [⟨"-".data, [], false, none, none⟩] ∧
    parseTokensClient ([] : List Char) = [] := by decide

/-- C2 witness: the amended idempotence at the concrete token parsed from a plain word. -/
theorem c2_idempotent_amended_witness :
    parseTokensClient (parseOne "Dyspnea".data).cleanToken =
      [⟨(parseOne "Dyspnea".data).cleanToken, (parseOne "Dyspnea".data).cleanToken,
        true, none, none⟩] :=
  c2_idempotent_amended "Dyspnea".data (parseOne "Dyspnea".data) (by decide) (by decide)
    (by decide) (by decide) (by decide) (by decide) (by decide)

/-- C3 counterexample: a fragment ending in a down arrow after a comparison
still parses as the comparison (the match runs after the directional suffix
and overwrites it), so its valueModifier is the operator, not the arrow the
claim requires, and its cleanText has more than the trailing glyph
stripped. -/
theorem c3_directional_cex :
    parseTokensClient "MCV<80↓".data =
      [⟨"MCV<80↓".data, "MCV".data, true, some ['<'], some (JsVal.str ['8', '0'])⟩] ∧
    (some ['<'] : Option (List Char)) ≠ some ['↓'] := by decide

/-- C3 witness: the invariant at the concrete token parsed from a down-arrow fragment. -/
theorem c3_modifier_invariant_witness :
    modifierInvariant (parseOne "Ferritin↓".data) :=
  c3_modifier_invariant "Ferritin↓".data (parseOne "Ferritin↓".data) (by decide)

/-- C7 counterexample: the token parsed from the comparison sample carries
the raw digit capture, a string, as its numericValue, which is not the
number 80 the claim states. -/
theorem c7_numeric_value_cex :
    (parseTokensClient "MCV<80".data).map Tok.numericValue = [some (JsVal.str ['8', '0'])] ∧
    (JsVal.str ['8', '0']) ≠ JsVal.num 80 := by decide

/-- C7 (amended): the comparison sample yields exactly one token with
cleanText MCV, valueModifier the less-than operator, and numericValue the
digit string 80, kept as the raw regex capture rather than parsed to a
number. -/
theorem c7_tokenize_mcv_amended :
    parseTokensClient "MCV<80".data =
      [⟨"MCV<80".data, "MCV".data, true, some ['<'], some (JsVal.str ['8', '0'])⟩] := by decide

/-- C8 counterexample: the non-empty fragment consisting of a lone up arrow
parses to a token with empty cleanText, contradicting the claim. -/
theorem c8_empty_cleanText_cex :
    parseTokensClient "↑".data = [⟨"↑".data, [], true, some ['↑'], none⟩] ∧
    "↑".data ≠ ([] : List Char) := by decide

/-- C8 witness: the amended statement at the concrete sign-and-arrow fragment. -/
theorem c8_nonempty_cleanText_amended_witness :
    (parseOne "-↓".data).original = ['+'] ∨ (parseOne "-↓".data).original = ['-'] ∨
    (parseOne "-↓".data).original = ['↑'] ∨ (parseOne "-↓".data).original = ['↓'] ∨
    (parseOne "-↓".data).original = ['+', '↑'] ∨ (parseOne "-↓".data).original = ['+', '↓'] ∨
    (parseOne "-↓".data).original = ['-', '↑'] ∨ (parseOne "-↓".data).original = ['-', '↓'] :=
  c8_nonempty_cleanText_amended "-↓".data (parseOne "-↓".data) (by decide) (by decide)

/-- C1 witness: two resolvable tokens against an always-failing attach collaborator. -/
theorem c1_attach_failure_isolated_witness :
    ((processTokens attachErrAll "d1".data
        [⟨"MCV<80".data, some "f1".data, some "MCV".data, true, some ['<'],
          some (JsVal.str ['8', '0'])⟩,
         ⟨"Dyspnea".data, some "f2".data, some "Dyspnea".data, true, none, none⟩]).1).length = 2 ∧
    ((processTokens attachErrAll "d1".data
        [⟨"MCV<80".data, some "f1".data, some "MCV".data, true, some ['<'],
          some (JsVal.str ['8', '0'])⟩,
         ⟨"Dyspnea".data, some "f2".data, some "Dyspnea".data, true, none, none⟩]).1).map
        ProcessedToken.src =
      [⟨"MCV<80".data, some "f1".data, some "MCV".data, true, some ['<'],
        some (JsVal.str ['8', '0'])⟩,
       ⟨"Dyspnea".data, some "f2".data, some "Dyspnea".data, true, none, none⟩] ∧
    ((processTokens attachErrAll "d1".data
        [⟨"MCV<80".data, some "f1".data, some "MCV".data, true, some ['<'],
          some (JsVal.str ['8', '0'])⟩,
         ⟨"Dyspnea".data, some "f2".data, some "Dyspnea".data, true, none, none⟩]).1)[0]? =
      some ⟨⟨"MCV<80".data, some "f1".data, some "MCV".data, true, some ['<'],
        some (JsVal.str ['8', '0'])⟩, false, some "down".data, false⟩ :=
  c1_attach_failure_isolated attachErrAll "d1".data
    [⟨"MCV<80".data, some "f1".data, some "MCV".data, true, some ['<'],
      some (JsVal.str ['8', '0'])⟩,
     ⟨"Dyspnea".data, some "f2".data, some "Dyspnea".data, true, none, none⟩] 0
    ⟨"MCV<80".data, some "f1".data, some "MCV".data, true, some ['<'],
      some (JsVal.str ['8', '0'])⟩ "down".data (by decide) (by decide) (by decide)

/-- C4 counterexample: for a resolved comparison token the attach call's
value text is the bare operator; the numeric value is not appended as the
claim states. -/
theorem c4_value_text_cex :
    (processTokens attachOk "d1".data
        [⟨"MCV<80".data, some "f1".data, some "MCV".data, true, some ['<'],
          some (JsVal.str ['8', '0'])⟩]).2 =
      [⟨"d1".data, "f1".data, some ['<'], true, "common".data, 1⟩] ∧
    (some ['<'] : Option (List Char)) ≠ some ['<', '8', '0'] := by decide

/-- C5 witness: two concrete calls 100 ms apart under a 300 ms window. -/
theorem c5_debounce_supersedes_witness :
    executedQueries 300 [⟨"ir".data, 0⟩, ⟨"iro".data, 100⟩] = ["iro".data] ∧
    delivered idSearch 300 [⟨"ir".data, 0⟩, ⟨"iro".data, 100⟩] =
      [none, some (idSearch "iro".data)] :=
  c5_debounce_supersedes idSearch 300 "ir".data "iro".data 0 100 (by decide)

/-- C6 counterexample: a stats entry cached at time zero is still served
unchanged at a time far past any time-to-live, so not every cache entry
expires as the claim states. -/
theorem c6_stats_no_expiry_cex :
    (runOps 300000 ([] : List (CEntry Nat))
        [CacheOp.stats "d1".data ⟨some [7], none⟩ 0,
         CacheOp.stats "d1".data ⟨some [99], none⟩ 1000000000]).1 =
      [CVal.stats ⟨some 7, none⟩, CVal.stats ⟨some 7, none⟩] ∧
    CVal.stats (⟨some 7, none⟩ : ApiRes Nat) ≠ CVal.stats ⟨some 99, none⟩ := by decide

/-- C6 witness: a concrete fresh search insertion scheduling its deletion timer. -/
theorem c6_expiry_amended_witness :
    (searchStep 300000 5 ([] : List (CEntry Nat)) "q".data 10 ⟨some [], none⟩).2 =
      [⟨searchKey "q".data 10, CVal.search ⟨some [], none⟩, some 300005⟩] :=
  (c6_expiry_amended Nat 300000).1 5 [] "q".data 10 ⟨some [], none⟩ rfl rfl

/-- C9 counterexample: invoking the workflow with no target entity id
produces the silent no-op outcome, not a thrown error as the claim
states. -/
theorem c9_no_throw_cex :
    processTokenInput attachOk none "a".data ⟨some [], none⟩ = WorkflowOutcome.noop ∧
    WorkflowOutcome.noop ≠ WorkflowOutcome.thrown "no target entity".data := by decide

/-- C9 witness: the amended boundary behavior at concrete inputs. -/
theorem c9_error_boundary_amended_witness :
    processTokenInput attachOk (some "d1".data) "a".data ⟨some [], none⟩ ≠
      WorkflowOutcome.thrown "x".data ∧
    processTokenInput attachOk none "a".data ⟨some [], none⟩ = WorkflowOutcome.noop ∧
    processTokenInput attachOk (some []) "a".data ⟨some [], none⟩ = WorkflowOutcome.noop ∧
    processTokenInput attachOk (some ('d' :: "1".data)) "a".data ⟨some [], some "boom".data⟩ =
      WorkflowOutcome.caught "boom".data :=
  c9_error_boundary_amended attachOk (some "d1".data) "1".data "a".data ⟨some [], none⟩
    "boom".data "x".data (by decide)

/-- C10 witness: a concrete failed lookup against empty caches leaves them empty. -/
theorem c10_error_never_cached_witness :
    (searchStep 300000 0 ([] : List (CEntry Nat)) "q".data 10 ⟨some [], some "boom".data⟩).2 =
      [] ∧
    (statsStep ([] : List (CEntry Nat)) "d".data ⟨some [], some "boom".data⟩).2 = [] ∧
    (getCachedDiseaseStats ([] : List (CKey × ApiRes Nat)) "d".data
        (apiGetDiseaseStats ⟨some [], some "boom".data⟩)).2 = [] := by
  have h := c10_error_never_cached Nat 300000 0 [] "q".data "d".data 10 (some [])
    "boom".data [] (by simp) (by simp)
  exact ⟨h.1, h.2.1, h.2.2.1⟩

end MedNotes
